import Mathlib

/-!
A shallow embedding of `src/rabbitmq/connection.py` (the connection core of an
AMQP-style client) and proofs about it.  Pure Python functions become Lean
functions; the mutable `Connection` object becomes a `Connection` structure
passed and returned explicitly; raised exceptions become `Option Err` / `Except`
results.  The collaborator modules `rabbitmq/codec.py`, `rabbitmq/channel.py`
and `rabbitmq/spec.py` are not part of the sources; the few pieces of them the
connection core depends on are modelled from the specification and marked as
such in their doc comments.
-/

/-- Content properties (`BasicProperties` and friends) are opaque to
`connection.py`: it only tests their truthiness and forwards them into a
content-header frame.  Modelled as an abstract token; `none` at the
`Option Props` level models a falsy/absent properties object. -/
structure Props where
  raw : Nat
deriving DecidableEq, Repr

/-- The protocol methods `connection.py` constructs or inspects
(`spec.Connection.*`).  Field sets follow the source's uses; the constant
`client_properties` dictionary of `StartOk` is not modelled (the core never
reads it back). -/
inductive Method where
  | start (mechanisms : String)
  | startOk (mechanism : String) (response : String)
  | tune (channel_max : Nat) (frame_max : Nat) (heartbeat : Nat)
  | tuneOk (channel_max : Nat) (frame_max : Nat) (heartbeat : Nat)
  | open (virtual_host : String) (insist : Bool)
  | openOk (known_hosts : String)
  | close (reply_code : Nat) (reply_text : String) (class_id : Nat) (method_id : Nat)
  | closeOk
deriving DecidableEq, Repr

/-- Wire frames as `connection.py` sees them (`codec.Frame*`).  The body
payload is a list of bytes (`List Nat`); marshalling to raw bytes is the
codec collaborator's job and the outbound buffer is therefore modelled at
frame granularity. -/
inductive Frame where
  | protocolHeader (t1 : Nat) (t2 : Nat) (major : Nat) (minor : Nat)
  | method (channel_number : Nat) (m : Method)
  | header (channel_number : Nat) (body_size : Nat) (props : Props)
  | body (channel_number : Nat) (payload : List Nat)
  | heartbeat (channel_number : Nat)
deriving DecidableEq, Repr

/-- Modelled from the spec: `rabbitmq/spec.py` is not in the sources.  The
protocol version pair sent in the local protocol header; its exact value is
immaterial to every claim. -/
def PROTOCOL_VERSION : Nat × Nat := (8, 0)

/-- The first argument the source passes to `ProtocolVersionMismatch`.
`_login1` writes `ProtocolVersionMismatch(self._local_protocol_header, frame)`
— without parentheses — so the argument is the bound method object itself,
not a frame; `boundMethod` models that distinct runtime object, `headerFrame`
models an actual frame value. -/
inductive PHArg where
  | headerFrame (f : Frame)
  | boundMethod
deriving DecidableEq, Repr

/-- The exceptions the connection core can raise.  `nameError` models the
`NameError` hit in `_login1`'s no-mechanism branch (the bare name
`credentials` is unbound there); `attributeError` models Python attribute
errors on frames of an unexpected shape; `keyError` models a failed
`self.channels[...]` lookup. -/
inductive Err where
  | protocolVersionMismatch (localArg : PHArg) (peer : Frame)
  | connectionClosed (reason : Method)
  | channelClosed (reason : Method)
  | noFreeChannels
  | nameError
  | attributeError
  | keyError
deriving DecidableEq, Repr

/-- `PlainCredentials` from the source. -/
structure PlainCredentials where
  username : String
  password : String
deriving DecidableEq, Repr

/-- Python's `str.split()` with no argument: split on runs of whitespace,
discarding empty fields.  The accumulator collects the current word in
reverse. -/
def pySplitAux : List Char → List Char → List (List Char)
  | [], acc => if acc.isEmpty then [] else [acc.reverse]
  | c :: cs, acc =>
    if c = ' ' ∨ c = '\t' ∨ c = '\n' ∨ c = '\r' then
      if acc.isEmpty then pySplitAux cs [] else acc.reverse :: pySplitAux cs []
    else pySplitAux cs (c :: acc)

/-- Python's `str.split()` on a `String`. -/
def pySplit (s : String) : List String :=
  (pySplitAux s.data []).map (fun cs => String.mk cs)

/-- `PlainCredentials.response_for`: the source splits the peer's
`mechanisms` string on whitespace (`start.mechanisms.split()`) and answers
only for `PLAIN`, with the SASL PLAIN response
`'\0username\0password'`. -/
def PlainCredentials.response_for (c : PlainCredentials) (mechanisms : String) :
    Option (String × String) :=
  if "PLAIN" ∈ pySplit mechanisms then
    some ("PLAIN", "\x00" ++ c.username ++ "\x00" ++ c.password)
  else
    none

/-- `ConnectionParameters` from the source (defaults `0`, `131072`, `0`). -/
structure ConnectionParameters where
  channel_max : Nat := 0
  frame_max : Nat := 131072
  heartbeat : Nat := 0
deriving DecidableEq, Repr

/-- The slice of `codec.ConnectionState` the connection core reads and
writes: the negotiated limits.  Modelled from the spec: `rabbitmq/codec.py`
is not in the sources; the spec describes it as "the negotiated-limits
record the handshake mutates", with the limits unset (falsy, i.e. zero)
until `tune` is applied. -/
structure ConnectionState where
  channel_max : Nat := 0
  frame_max : Nat := 0
deriving DecidableEq, Repr

/-- `codec.ConnectionState.HEADER_SIZE`.  Modelled from the spec: the codec
module is not in the sources and the spec fixes the combined per-frame
overhead at 8 bytes (frame_max 4096 gives 4088-byte pieces); 7 + 1 is the
AMQP split of that overhead. -/
def ConnectionState.HEADER_SIZE : Nat := 7

/-- `codec.ConnectionState.FOOTER_SIZE`.  Modelled from the spec, see
`ConnectionState.HEADER_SIZE`. -/
def ConnectionState.FOOTER_SIZE : Nat := 1

/-- `codec.ConnectionState.tune`: installs the agreed limits.  Modelled from
the spec ("apply the results to the connection's active limits"). -/
def ConnectionState.tune (_s : ConnectionState) (channel_max frame_max : Nat) :
    ConnectionState :=
  { channel_max := channel_max, frame_max := frame_max }

/-- The per-channel state the connection core touches (`ChannelHandler` in
`rabbitmq/channel.py`, which is not in the sources).  Only the channel
number and the close reason matter to the connection-level claims. -/
structure ChannelHandler where
  channel_number : Nat
  channel_close : Option Method := none
deriving DecidableEq, Repr

/-- Which frame-handler function `self.frame_handler` currently points to. -/
inductive HandlerTag where
  | login1
  | login2
  | generic
deriving DecidableEq, Repr

/-- The `Connection` object.  `channels` models the Python dict
`self.channels` as a partial map from channel number to channel state;
`outbound_buffer` models `self.outbound_buffer` at frame granularity (the
codec's `marshal` is outside the sources). -/
structure Connection where
  state : ConnectionState
  credentials : Option PlainCredentials
  virtual_host : String
  parameters : ConnectionParameters
  outbound_buffer : List Frame
  frame_handler : HandlerTag
  connection_open : Bool
  connection_close : Option Method
  channels : Nat → Option ChannelHandler
  next_channel : Nat

/-- `combine_tuning` from the source, verbatim. -/
def combine_tuning (a b : Nat) : Nat :=
  if a = 0 then b
  else if b = 0 then a
  else min a b

/-- `Connection._local_protocol_header()` (the value the method returns when
actually called): `FrameProtocolHeader(1, 1, major, minor)`. -/
def local_protocol_header : Frame :=
  Frame.protocolHeader 1 1 PROTOCOL_VERSION.1 PROTOCOL_VERSION.2

/-- `Connection.__init__` as far as connection state goes: fresh limits,
given credentials, empty channel table, cursor 0, handler `_login1`, and the
local protocol header already written to the outbound buffer.  The
transport connection itself (`amqp_connect`) is a subclass responsibility
and is outside the model, as is the optional `wait_for_open` pump. -/
def mkConnection (virtual_host : String := "/")
    (credentials : PlainCredentials := ⟨"guest", "guest"⟩)
    (parameters : ConnectionParameters := {}) : Connection where
  state := {}
  credentials := some credentials
  virtual_host := virtual_host
  parameters := parameters
  outbound_buffer := [local_protocol_header]
  frame_handler := HandlerTag.login1
  connection_open := false
  connection_close := none
  channels := fun _ => none
  next_channel := 0

/-- `Connection.send_frame`: appends the marshalled frame to the outbound
buffer (modelled at frame granularity). -/
def send_frame (conn : Connection) (frame : Frame) : Connection :=
  { conn with outbound_buffer := conn.outbound_buffer ++ [frame] }

/-- The body-splitting loop of `send_method`, with an explicit recursion
budget: while bytes remain, peel off `min (remaining) maxpiece` bytes as the
next piece.  When `maxpiece > 0` every iteration consumes at least one byte,
so a budget of `body.length` (see `fragmentBody`) is never exhausted; when
`maxpiece = 0` the source's loop never terminates and the budget models
that divergence by cutting the list short. -/
def fragmentBodyFuel (maxpiece : Nat) : Nat → List Nat → List (List Nat)
  | 0, _ => []
  | fuel + 1, body =>
    if body.isEmpty then []
    else body.take maxpiece :: fragmentBodyFuel maxpiece fuel (body.drop maxpiece)

/-- The body-splitting loop of `send_method` at its natural budget. -/
def fragmentBody (maxpiece : Nat) (body : List Nat) : List (List Nat) :=
  fragmentBodyFuel maxpiece body.length body

/-- `Connection.send_method`: one method frame; a content-header frame
exactly when the properties object is truthy (carrying `len(body)`, or 0
when the body is falsy); then the fragmented body frames.  The source
accepts `content` as `None`, a bare body, or a `(props, body)` tuple — all
three flatten to an `Option Props` plus a byte list, with `[]` standing for
an absent or empty (falsy) body, for which the source emits no body frame
and reports length 0. -/
def send_method (conn : Connection) (channel_number : Nat) (method : Method)
    (props : Option Props := none) (body : List Nat := []) : Connection :=
  let c1 := send_frame conn (Frame.method channel_number method)
  let c2 := match props with
    | some p => send_frame c1 (Frame.header channel_number body.length p)
    | none => c1
  let maxpiece := conn.state.frame_max -
    ConnectionState.HEADER_SIZE - ConnectionState.FOOTER_SIZE
  (fragmentBody maxpiece body).foldl
    (fun c piece => send_frame c (Frame.body channel_number piece)) c2

/-- `Connection._set_channel`: a plain dict assignment. -/
def set_channel (conn : Connection) (channel_number : Nat) (ch : ChannelHandler) :
    Connection :=
  { conn with
    channels := fun n => if n = channel_number then some ch else conn.channels n }

/-- `Connection.reset_channel`: removes the entry when present (removing an
absent key is pointwise the same map). -/
def reset_channel (conn : Connection) (channel_number : Nat) : Connection :=
  { conn with
    channels := fun n => if n = channel_number then none else conn.channels n }

/-- `limit = self.state.channel_max or 32767` from `_next_channel_number`. -/
def channelLimit (conn : Connection) : Nat :=
  if conn.state.channel_max = 0 then 32767 else conn.state.channel_max

/-- The cursor advance inside `_next_channel_number`'s loop:
`self.next_channel = (self.next_channel + 1) % limit` followed by the
skip-0 fix `if self.next_channel == 0: self.next_channel = 1`. -/
def bump (limit cur : Nat) : Nat :=
  if (cur + 1) % limit = 0 then 1 else (cur + 1) % limit

/-- The scan loop of `_next_channel_number`, with an explicit recursion
budget: while the cursor is a registered number, advance it (`bump`) and
fail once more than `limit` advances have happened.  The source's loop
performs at most `limit + 1` iterations (the `tries > limit` check), so a
budget of `limit + 1` (see `nextChannelNumber`) is never exhausted. -/
def nextChannelLoop (inTable : Nat → Bool) (limit : Nat) :
    Nat → Nat → Nat → Option Nat
  | 0, _, _ => none
  | fuel + 1, cur, tries =>
    if inTable cur then
      if limit < tries + 1 then none
      else nextChannelLoop inTable limit fuel (bump limit cur) (tries + 1)
    else some cur

/-- `Connection._next_channel_number`: scan from the saved cursor for a
number not in the table; `none` models the `NoFreeChannels` raise.  On
success the source both returns `self.next_channel` and leaves it set to the
returned number, so the successful state carries the chosen number as the
new cursor. -/
def nextChannelNumber (conn : Connection) : Option (Nat × Connection) :=
  match nextChannelLoop (fun n => (conn.channels n).isSome) (channelLimit conn)
      (channelLimit conn + 1) conn.next_channel 0 with
  | none => none
  | some n => some (n, { conn with next_channel := n })

/-- Modelled from the spec: `ChannelHandler.__init__` lives in
`rabbitmq/channel.py`, which is not in the sources.  Per the spec's close
cascade ("a channel registered after the connection is already closed must
be assigned a reason immediately rather than never") a freshly created
channel starts from the connection's recorded close reason — `none` while
the connection is open. -/
def mkChannelHandler (conn : Connection) (channel_number : Nat) : ChannelHandler :=
  { channel_number := channel_number, channel_close := conn.connection_close }

/-- `ChannelHandler._set_channel_close`.  Modelled from the spec:
`rabbitmq/channel.py` is not in the sources; per the spec "each channel's
own close reason is set if not already set — first reason wins, later ones
are ignored". -/
def set_channel_close (ch : ChannelHandler) (c : Method) : ChannelHandler :=
  match ch.channel_close with
  | some _ => ch
  | none => { ch with channel_close := some c }

/-- `Connection._set_connection_close`: a no-op when a close reason is
already recorded; otherwise records the reason and cascades it (through
`_set_channel_close`) to every channel currently in the table. -/
def set_connection_close (conn : Connection) (c : Method) : Connection :=
  match conn.connection_close with
  | some _ => conn
  | none =>
    { conn with
      connection_close := some c
      channels := fun n => (conn.channels n).map (fun ch => set_channel_close ch c) }

/-- `ChannelHandler._ensure`.  Modelled from the spec: `rabbitmq/channel.py`
is not in the sources; per the spec the validity check fails with the
channel's recorded close reason when there is one. -/
def ChannelHandler.ensure (ch : ChannelHandler) : Except Err ChannelHandler :=
  match ch.channel_close with
  | some r => Except.error (Err.channelClosed r)
  | none => Except.ok ch

/-- `Connection._ensure_channel`: fail with `ConnectionClosed` carrying the
recorded reason before anything else; then look the channel up (a missing
key is a Python `KeyError`) and run its own validity check. -/
def ensure_channel (conn : Connection) (channel_number : Nat) :
    Except Err ChannelHandler :=
  match conn.connection_close with
  | some r => Except.error (Err.connectionClosed r)
  | none =>
    match conn.channels channel_number with
    | none => Except.error Err.keyError
    | some ch => ch.ensure

/-- `Connection._rpc` in state-passing form: the validity check, then the
method send.  A raised exception (the `Option Err` component) leaves the
state exactly as it was, as in the source, where nothing is mutated before
the raise.  The subsequent `channel.wait_for_reply` blocks on the external
driver (`rabbitmq/channel.py`, not in the sources); its successful
completion is modelled as returning right after the send. -/
def rpc (conn : Connection) (channel_number : Nat) (method : Method) :
    Option Err × Connection :=
  match ensure_channel conn channel_number with
  | Except.error e => (some e, conn)
  | Except.ok _ => (none, send_method conn channel_number method none [])

/-- One application-visible allocation: draw a number from
`_next_channel_number` and register a fresh channel under it (the
`ChannelHandler` constructor registers itself via `_set_channel`). -/
def allocRegister (conn : Connection) : Option (Nat × Connection) :=
  match nextChannelNumber conn with
  | none => none
  | some (n, c) => some (n, set_channel c n (mkChannelHandler c n))

/-- `k` successive allocations, each registered before the next; returns the
drawn numbers in order. -/
def allocSeq : Connection → Nat → Option (List Nat × Connection)
  | conn, 0 => some ([], conn)
  | conn, k + 1 =>
    match allocRegister conn with
    | none => none
    | some (n, c) =>
      match allocSeq c k with
      | none => none
      | some (ns, c2) => some (n :: ns, c2)

/-- `Connection._erase_credentials`. -/
def erase_credentials (conn : Connection) : Connection :=
  { conn with credentials := none }

/-- `Connection._login1`.  A protocol-header frame raises
`ProtocolVersionMismatch(self._local_protocol_header, frame)` — the first
argument written without parentheses, so the bound method object itself
(`PHArg.boundMethod`) is stored, not the header frame.  A frame whose
method lacks `.mechanisms` (or a non-method frame, or an erased
credentials object) is a Python `AttributeError`; the no-mechanism branch
`raise LoginError(..., credentials)` hits a `NameError` on the unbound
name `credentials` while evaluating the raise's arguments.  On success:
send the start-acknowledgement, erase the credentials, move the frame
handler to `_login2`. -/
def login1 (conn : Connection) (frame : Frame) : Option Err × Connection :=
  match frame with
  | Frame.protocolHeader t1 t2 major minor =>
    (some (Err.protocolVersionMismatch PHArg.boundMethod
      (Frame.protocolHeader t1 t2 major minor)), conn)
  | Frame.method _ (Method.start mechanisms) =>
    match conn.credentials with
    | none => (some Err.attributeError, conn)
    | some creds =>
      match creds.response_for mechanisms with
      | none => (some Err.nameError, conn)
      | some (mechanism, response) =>
        let c1 := send_method conn 0 (Method.startOk mechanism response) none []
        let c2 := erase_credentials c1
        (none, { c2 with frame_handler := HandlerTag.login2 })
  | _ => (some Err.attributeError, conn)

/-- `Connection._install_channel0`: creates `ChannelHandler(self, 0)`
(which registers itself through `_set_channel`) and subscribes the
connection-close callback in its `async_map`; the subscription map is not
modelled — dispatch into it is modelled by `async_connection_close`
directly. -/
def install_channel0 (conn : Connection) : Connection :=
  set_channel conn 0 (mkChannelHandler conn 0)

/-- `Connection._login2`: combine the peer's tuning offers with the locally
configured parameters, apply them to the codec state, send the tuning
acknowledgement, switch to the steady-state handler, install channel 0, and
issue the synchronous virtual-host open.  The open's `known_hosts` reply
field is delivered by the driver and not retained in the model; the wait
for `OpenOk` is driver-mediated, and its successful completion is modelled
as returning right after the send, after which `connection_open` is set.
A frame without tuning fields is a Python `AttributeError`. -/
def login2 (conn : Connection) (frame : Frame) : Option Err × Connection :=
  match frame with
  | Frame.method _ (Method.tune cm fm hb) =>
    let channel_max := combine_tuning conn.parameters.channel_max cm
    let frame_max := combine_tuning conn.parameters.frame_max fm
    let c1 := { conn with state := conn.state.tune channel_max frame_max }
    let c2 := send_method c1 0 (Method.tuneOk channel_max frame_max
      (combine_tuning conn.parameters.heartbeat hb)) none []
    let c3 := { c2 with frame_handler := HandlerTag.generic }
    let c4 := install_channel0 c3
    match rpc c4 0 (Method.open c4.virtual_host true) with
    | (some e, c5) => (some e, c5)
    | (none, c5) => (none, { c5 with connection_open := true })
  | _ => (some Err.attributeError, conn)

/-- `frame.channel_number` (every codec frame carries one; the protocol
header is a connection-level frame, channel 0). -/
def frameChannel : Frame → Nat
  | Frame.protocolHeader _ _ _ _ => 0
  | Frame.method n _ => n
  | Frame.header n _ _ => n
  | Frame.body n _ => n
  | Frame.heartbeat n => n

/-- `Connection._generic_frame_handler`: echo heartbeats, otherwise route
to the frame's channel (an unknown channel number is a Python `KeyError`).
The channel-side handling lives in `rabbitmq/channel.py` (not in the
sources) and does not itself mutate connection state; the connection-level
callbacks a channel handler can trigger (`_async_connection_close`) are
modelled as separate operations. -/
def generic_frame_handler (conn : Connection) (frame : Frame) :
    Option Err × Connection :=
  match frame with
  | Frame.heartbeat _ => (none, send_frame conn frame)
  | _ =>
    match conn.channels (frameChannel frame) with
    | none => (some Err.keyError, conn)
    | some _ => (none, conn)

/-- `Connection._async_connection_close`: record the peer's close reason,
mark not-open, acknowledge with `CloseOk`. -/
def async_connection_close (conn : Connection) (m : Method) : Connection :=
  let c1 := set_connection_close conn m
  let c2 := { c1 with connection_open := false }
  send_method c2 0 Method.closeOk none []

/-- `Connection.close`: when open, mark not-open, RPC a
`Close(200, "Normal shutdown", 0, 0)` expecting `CloseOk` (the wait being
driver-mediated as in `rpc`), then record the close reason;
`shutdown_event_loop` is a subclass no-op. -/
def close (conn : Connection) : Option Err × Connection :=
  if conn.connection_open then
    match rpc { conn with connection_open := false } 0
        (Method.close 200 "Normal shutdown" 0 0) with
    | (some e, c2) => (some e, c2)
    | (none, c2) => (none, set_connection_close c2 (Method.close 200 "Normal shutdown" 0 0))
  else (none, conn)

/-- `Connection.handle_close`: synthesize the socket-closed reason, cascade
it, and run the local close path. -/
def handle_close (conn : Connection) : Option Err × Connection :=
  close (set_connection_close conn (Method.close 0 "Socket closed" 0 0))

/-- The byte count `handle_read` passes to the transport's `recv`:
`b = self.state.channel_max; if not b: b = 131072` — it reads
`channel_max`, not `frame_max`. -/
def handle_read_recv_bytes (conn : Connection) : Nat :=
  if conn.state.channel_max = 0 then 131072 else conn.state.channel_max

/-- A connection with the control channel 0 installed, the state every
normal allocation starts from (the handshake registers channel 0 before
`channel()` can be called). -/
def connWithChannel0 : Connection :=
  set_channel mkConnection 0 (mkChannelHandler mkConnection 0)

/-- Channel creation with an explicit number as the application-facing
registration path: `ChannelHandler.__init__` builds the channel state and
registers it through `_set_channel`. -/
def register_channel (conn : Connection) (channel_number : Nat) : Connection :=
  set_channel conn channel_number (mkChannelHandler conn channel_number)

/-- One state-evolving operation of the connection, as invoked by frame
dispatch, the driver, or application code: every method of `Connection`
that mutates connection state appears as a constructor, so the reflexive
transitive closure of `Step` covers every reachable successor state. -/
inductive Step : Connection → Connection → Prop where
  | sendFrame (c : Connection) (f : Frame) : Step c (send_frame c f)
  | sendMethod (c : Connection) (n : Nat) (m : Method) (p : Option Props)
      (b : List Nat) : Step c (send_method c n m p b)
  | setConnectionClose (c : Connection) (r : Method) :
      Step c (set_connection_close c r)
  | setChannel (c : Connection) (n : Nat) (ch : ChannelHandler) :
      Step c (set_channel c n ch)
  | resetChannel (c : Connection) (n : Nat) : Step c (reset_channel c n)
  | registerChannel (c : Connection) (n : Nat) : Step c (register_channel c n)
  | installChannel0 (c : Connection) : Step c (install_channel0 c)
  | allocate (c : Connection) (n : Nat) (c' : Connection)
      (h : nextChannelNumber c = some (n, c')) : Step c c'
  | rpcStep (c : Connection) (n : Nat) (m : Method) : Step c (rpc c n m).2
  | closeStep (c : Connection) : Step c (close c).2
  | handleClose (c : Connection) : Step c (handle_close c).2
  | login1Step (c : Connection) (f : Frame) : Step c (login1 c f).2
  | login2Step (c : Connection) (f : Frame) : Step c (login2 c f).2
  | genericFrame (c : Connection) (f : Frame) :
      Step c (generic_frame_handler c f).2
  | asyncConnectionClose (c : Connection) (m : Method) :
      Step c (async_connection_close c m)

/-- A connection exhausting its admissible numbers: channel-max 1, with
channels 0 and 1 both registered. -/
def exhConn : Connection :=
  { mkConnection with
    state := { channel_max := 1, frame_max := 0 },
    channels := fun n => if n ≤ 1 then some ⟨n, none⟩ else none }

theorem fragmentBodyFuel_congr (maxpiece : Nat) (hm : maxpiece ≠ 0) :
    ∀ fuel fuel' : Nat, ∀ body : List Nat,
      body.length ≤ fuel → body.length ≤ fuel' →
      fragmentBodyFuel maxpiece fuel body = fragmentBodyFuel maxpiece fuel' body := by
  intro fuel
  induction fuel with
  | zero =>
    intro fuel' body h h'
    have : body = [] := List.length_eq_zero.mp (Nat.le_zero.mp h)
    subst this
    cases fuel' <;> simp [fragmentBodyFuel]
  | succ fuel ih =>
    intro fuel' body h h'
    cases body with
    | nil => cases fuel' <;> simp [fragmentBodyFuel]
    | cons a l =>
      cases fuel' with
      | zero => simp at h'
      | succ fuel'' =>
        have hstep : ∀ f : Nat, fragmentBodyFuel maxpiece (f + 1) (a :: l) =
            (a :: l).take maxpiece ::
              fragmentBodyFuel maxpiece f ((a :: l).drop maxpiece) :=
          fun f => rfl
        rw [hstep fuel, hstep fuel'']
        have hlen : ((a :: l).drop maxpiece).length ≤ fuel := by
          simp only [List.length_drop, List.length_cons]
          simp only [List.length_cons] at h
          omega
        have hlen' : ((a :: l).drop maxpiece).length ≤ fuel'' := by
          simp only [List.length_drop, List.length_cons]
          simp only [List.length_cons] at h'
          omega
        rw [ih fuel'' _ hlen hlen']

theorem fragmentBody_nil (maxpiece : Nat) : fragmentBody maxpiece [] = [] := rfl

theorem fragmentBody_step (maxpiece : Nat) (body : List Nat)
    (hb : body ≠ []) (hm : maxpiece ≠ 0) :
    fragmentBody maxpiece body =
      body.take maxpiece :: fragmentBody maxpiece (body.drop maxpiece) := by
  cases body with
  | nil => exact absurd rfl hb
  | cons a l =>
    have hdef : fragmentBody maxpiece (a :: l) =
        (a :: l).take maxpiece ::
          fragmentBodyFuel maxpiece l.length ((a :: l).drop maxpiece) := rfl
    rw [hdef]
    congr 1
    apply fragmentBodyFuel_congr maxpiece hm
    · simp only [List.length_drop, List.length_cons]
      omega
    · exact Nat.le_refl _

theorem fragmentBody_eq_nil_iff (maxpiece : Nat) (body : List Nat)
    (hm : maxpiece ≠ 0) :
    fragmentBody maxpiece body = [] ↔ body = [] := by
  constructor
  · intro h
    by_contra hb
    rw [fragmentBody_step maxpiece body hb hm] at h
    exact List.cons_ne_nil _ _ h
  · intro h
    rw [h, fragmentBody_nil]

/-- Concatenating the pieces restores the body. -/
theorem fragmentBody_join (maxpiece : Nat) (hm : maxpiece ≠ 0) :
    ∀ body : List Nat, (fragmentBody maxpiece body).flatten = body := by
  have main : ∀ n : Nat, ∀ body : List Nat, body.length = n →
      (fragmentBody maxpiece body).flatten = body := by
    intro n
    induction n using Nat.strong_induction_on with
    | _ n ih =>
      intro body hl
      cases hb : body with
      | nil => rw [fragmentBody_nil]; rfl
      | cons a l =>
        rw [← hb]
        have hbne : body ≠ [] := by rw [hb]; exact List.cons_ne_nil _ _
        rw [fragmentBody_step maxpiece body hbne hm]
        have hpos : 0 < body.length := by rw [hb]; simp
        have hlt : (body.drop maxpiece).length < n := by
          rw [List.length_drop]
          omega
        rw [List.flatten_cons, ih _ hlt _ rfl, List.take_append_drop]
  exact fun body => main body.length body rfl

/-- Every piece is at most `maxpiece` long and non-empty. -/
theorem fragmentBody_piece_bounds (maxpiece : Nat) (hm : maxpiece ≠ 0) :
    ∀ body : List Nat, ∀ p ∈ fragmentBody maxpiece body,
      p.length ≤ maxpiece ∧ p ≠ [] := by
  have main : ∀ n : Nat, ∀ body : List Nat, body.length = n →
      ∀ p ∈ fragmentBody maxpiece body, p.length ≤ maxpiece ∧ p ≠ [] := by
    intro n
    induction n using Nat.strong_induction_on with
    | _ n ih =>
      intro body hl p hp
      cases hb : body with
      | nil => rw [hb, fragmentBody_nil] at hp; exact absurd hp (List.not_mem_nil p)
      | cons a l =>
        have hbne : body ≠ [] := by rw [hb]; exact List.cons_ne_nil _ _
        have hpos : 0 < body.length := by rw [hb]; simp
        rw [fragmentBody_step maxpiece body hbne hm] at hp
        rcases List.mem_cons.mp hp with h | h
        · subst h
          constructor
          · exact List.length_take_le maxpiece body
          · have hlen : (body.take maxpiece).length = min maxpiece body.length :=
              List.length_take _ _
            intro hnil
            rw [hnil] at hlen
            simp only [List.length_nil] at hlen
            omega
        · have hlt : (body.drop maxpiece).length < n := by
            rw [List.length_drop]
            omega
          exact ih _ hlt _ rfl p h
  exact fun body => main body.length body rfl

/-- Every piece except possibly the last is exactly `maxpiece` long. -/
theorem fragmentBody_piece_full (maxpiece : Nat) (hm : maxpiece ≠ 0) :
    ∀ body : List Nat, ∀ p ∈ (fragmentBody maxpiece body).dropLast,
      p.length = maxpiece := by
  have main : ∀ n : Nat, ∀ body : List Nat, body.length = n →
      ∀ p ∈ (fragmentBody maxpiece body).dropLast, p.length = maxpiece := by
    intro n
    induction n using Nat.strong_induction_on with
    | _ n ih =>
      intro body hl p hp
      cases hb : body with
      | nil => rw [hb, fragmentBody_nil] at hp; exact absurd hp (List.not_mem_nil p)
      | cons a l =>
        have hbne : body ≠ [] := by rw [hb]; exact List.cons_ne_nil _ _
        have hpos : 0 < body.length := by rw [hb]; simp
        rw [fragmentBody_step maxpiece body hbne hm] at hp
        cases hrest : fragmentBody maxpiece (body.drop maxpiece) with
        | nil => rw [hrest] at hp; simp at hp
        | cons q qs =>
          rw [hrest] at hp
          rw [List.dropLast_cons_of_ne_nil (by exact List.cons_ne_nil q qs)] at hp
          rcases List.mem_cons.mp hp with h | h
          · subst h
            have hdrop : body.drop maxpiece ≠ [] := by
              intro hnil
              rw [hnil, fragmentBody_nil] at hrest
              exact List.cons_ne_nil q qs hrest.symm
            have hlen : maxpiece < body.length := by
              by_contra hle
              push_neg at hle
              exact hdrop (List.drop_eq_nil_of_le hle)
            rw [List.length_take]
            omega
          · have hlt : (body.drop maxpiece).length < n := by
              rw [List.length_drop]
              omega
            have := ih _ hlt _ rfl p
            rw [hrest] at this
            exact this h
  exact fun body => main body.length body rfl

/-- The number of pieces is `ceil (L / maxpiece)`, written
`(L + maxpiece - 1) / maxpiece`. -/
theorem fragmentBody_count (maxpiece : Nat) (hm : maxpiece ≠ 0) :
    ∀ body : List Nat,
      (fragmentBody maxpiece body).length =
        (body.length + maxpiece - 1) / maxpiece := by
  have main : ∀ n : Nat, ∀ body : List Nat, body.length = n →
      (fragmentBody maxpiece body).length =
        (body.length + maxpiece - 1) / maxpiece := by
    intro n
    induction n using Nat.strong_induction_on with
    | _ n ih =>
      intro body hl
      cases hb : body with
      | nil =>
        rw [fragmentBody_nil]
        simp only [List.length_nil]
        rw [Nat.div_eq_of_lt (by omega)]
      | cons a l =>
        rw [← hb]
        have hbne : body ≠ [] := by rw [hb]; exact List.cons_ne_nil _ _
        have hpos : 0 < body.length := by rw [hb]; simp
        rw [fragmentBody_step maxpiece body hbne hm]
        have hlt : (body.drop maxpiece).length < n := by
          rw [List.length_drop]
          omega
        rw [List.length_cons, ih _ hlt _ rfl, List.length_drop]
        rcases le_or_lt body.length maxpiece with hle | hgt
        · have h1 : body.length - maxpiece = 0 := by omega
          rw [h1]
          have h2 : (0 + maxpiece - 1) / maxpiece = 0 :=
            Nat.div_eq_of_lt (by omega)
          rw [h2]
          have h3 : (body.length + maxpiece - 1) / maxpiece = 1 := by
            apply Nat.div_eq_of_lt_le <;> omega
          omega
        · have h1 : body.length - maxpiece + maxpiece - 1 + maxpiece =
              body.length + maxpiece - 1 := by omega
          have h2 : (body.length - maxpiece + maxpiece - 1 + maxpiece) / maxpiece =
              (body.length - maxpiece + maxpiece - 1) / maxpiece + 1 :=
            Nat.add_div_right _ (Nat.pos_of_ne_zero hm)
          rw [← h1, h2]
  exact fun body => main body.length body rfl

theorem foldl_send_frame_body (channel_number : Nat) (pieces : List (List Nat)) :
    ∀ c : Connection,
      (pieces.foldl (fun c piece => send_frame c (Frame.body channel_number piece))
          c).outbound_buffer =
        c.outbound_buffer ++ pieces.map (Frame.body channel_number) := by
  induction pieces with
  | nil => intro c; simp
  | cons p ps ih =>
    intro c
    rw [List.foldl_cons, ih, List.map_cons]
    simp [send_frame]

/-- Claim C1: `send_method` appends to the outbound buffer, in order and
uninterrupted, one method frame; then exactly when properties are present a
content-header frame carrying the properties and the total body length; then
`ceil (L / (frame_max - overhead))` body frames whose payloads are each
exactly `frame_max - overhead` bytes except possibly the last and whose
concatenation is the original body. -/
theorem send_method_frames (conn : Connection) (channel_number : Nat)
    (method : Method) (props : Option Props) (body : List Nat)
    (h : ConnectionState.HEADER_SIZE + ConnectionState.FOOTER_SIZE <
      conn.state.frame_max) :
    (send_method conn channel_number method props body).outbound_buffer =
      conn.outbound_buffer ++ [Frame.method channel_number method] ++
        (match props with
          | some p => [Frame.header channel_number body.length p]
          | none => []) ++
        (fragmentBody (conn.state.frame_max - ConnectionState.HEADER_SIZE -
          ConnectionState.FOOTER_SIZE) body).map (Frame.body channel_number) ∧
    (fragmentBody (conn.state.frame_max - ConnectionState.HEADER_SIZE -
        ConnectionState.FOOTER_SIZE) body).length =
      (body.length + (conn.state.frame_max - ConnectionState.HEADER_SIZE -
        ConnectionState.FOOTER_SIZE) - 1) /
        (conn.state.frame_max - ConnectionState.HEADER_SIZE -
          ConnectionState.FOOTER_SIZE) ∧
    (∀ p ∈ (fragmentBody (conn.state.frame_max - ConnectionState.HEADER_SIZE -
        ConnectionState.FOOTER_SIZE) body).dropLast,
      p.length = conn.state.frame_max - ConnectionState.HEADER_SIZE -
        ConnectionState.FOOTER_SIZE) ∧
    (∀ p ∈ fragmentBody (conn.state.frame_max - ConnectionState.HEADER_SIZE -
        ConnectionState.FOOTER_SIZE) body,
      p.length ≤ conn.state.frame_max - ConnectionState.HEADER_SIZE -
        ConnectionState.FOOTER_SIZE) ∧
    (fragmentBody (conn.state.frame_max - ConnectionState.HEADER_SIZE -
      ConnectionState.FOOTER_SIZE) body).flatten = body := by
  have hm : conn.state.frame_max - ConnectionState.HEADER_SIZE -
      ConnectionState.FOOTER_SIZE ≠ 0 := by
    unfold ConnectionState.HEADER_SIZE ConnectionState.FOOTER_SIZE at h ⊢
    omega
  refine ⟨?_, fragmentBody_count _ hm body, fragmentBody_piece_full _ hm body,
    fun p hp => (fragmentBody_piece_bounds _ hm body p hp).1,
    fragmentBody_join _ hm body⟩
  unfold send_method
  rw [foldl_send_frame_body]
  cases props with
  | none => simp [send_frame]
  | some p => simp [send_frame]

/-- Witness for C1: a 10-byte body with `frame_max = 12` (`maxpiece = 4`)
splits as 4 + 4 + 2 after the method and header frames. -/
theorem send_method_frames_witness :
    (send_method
      { mkConnection with state := { channel_max := 0, frame_max := 12 } }
      1 Method.closeOk (some ⟨0⟩)
      [0, 1, 2, 3, 4, 5, 6, 7, 8, 9]).outbound_buffer =
      [local_protocol_header, Frame.method 1 Method.closeOk,
        Frame.header 1 10 ⟨0⟩,
        Frame.body 1 [0, 1, 2, 3], Frame.body 1 [4, 5, 6, 7],
        Frame.body 1 [8, 9]] := by
  have h := send_method_frames
    { mkConnection with state := { channel_max := 0, frame_max := 12 } }
    1 Method.closeOk (some ⟨0⟩) [0, 1, 2, 3, 4, 5, 6, 7, 8, 9]
    (by decide)
  rw [h.1]
  decide

/-- Claim C2: `combine_tuning` is commutative, has zero as a two-sided
identity, and computes the minimum when both arguments are non-zero. -/
theorem combine_tuning_spec (a b : Nat) :
    combine_tuning a b = combine_tuning b a ∧
    combine_tuning 0 b = b ∧
    combine_tuning a 0 = a ∧
    (a ≠ 0 → b ≠ 0 → combine_tuning a b = min a b) := by
  unfold combine_tuning
  refine ⟨?_, ?_, ?_, ?_⟩
  · rcases eq_or_ne a 0 with ha | ha <;> rcases eq_or_ne b 0 with hb | hb <;>
      simp [ha, hb, Nat.min_comm]
  · simp
  · rcases eq_or_ne a 0 with ha | ha <;> simp [ha]
  · intro ha hb
    simp [ha, hb]

/-- Witness for C2 at concrete inputs, discharging the non-zero hypotheses
of the final conjunct. -/
theorem combine_tuning_spec_witness :
    combine_tuning 65535 131072 = combine_tuning 131072 65535 ∧
    combine_tuning 0 131072 = 131072 ∧
    combine_tuning 65535 0 = 65535 ∧
    combine_tuning 65535 131072 = min 65535 131072 := by
  have h := combine_tuning_spec 65535 131072
  exact ⟨h.1, h.2.1, h.2.2.1, h.2.2.2 (by decide) (by decide)⟩

theorem nextChannelLoop_free (inTable : Nat → Bool) (limit : Nat) :
    ∀ fuel cur tries n, nextChannelLoop inTable limit fuel cur tries = some n →
      inTable n = false := by
  intro fuel
  induction fuel with
  | zero =>
    intro cur tries n h
    exact absurd h (by simp [nextChannelLoop])
  | succ fuel ih =>
    intro cur tries n h
    simp only [nextChannelLoop] at h
    cases hb : inTable cur with
    | false =>
      rw [hb] at h
      simp only [Bool.false_eq_true, if_false, Option.some.injEq] at h
      rw [← h]
      exact hb
    | true =>
      rw [hb] at h
      simp only [if_true] at h
      by_cases hr : limit < tries + 1
      · rw [if_pos hr] at h
        exact absurd h (by simp)
      · rw [if_neg hr] at h
        exact ih _ _ _ h

theorem nextChannelNumber_state (conn : Connection) (n : Nat) (c' : Connection)
    (h : nextChannelNumber conn = some (n, c')) :
    c' = { conn with next_channel := n } := by
  unfold nextChannelNumber at h
  cases hm : nextChannelLoop (fun k => (conn.channels k).isSome) (channelLimit conn)
      (channelLimit conn + 1) conn.next_channel 0 with
  | none => rw [hm] at h; exact absurd h (by simp)
  | some m =>
    rw [hm] at h
    simp only [Option.some.injEq, Prod.mk.injEq] at h
    rw [← h.2, h.1]

theorem nextChannelNumber_unregistered (conn : Connection) (n : Nat) (c' : Connection)
    (h : nextChannelNumber conn = some (n, c')) :
    conn.channels n = none := by
  unfold nextChannelNumber at h
  cases hm : nextChannelLoop (fun k => (conn.channels k).isSome) (channelLimit conn)
      (channelLimit conn + 1) conn.next_channel 0 with
  | none => rw [hm] at h; exact absurd h (by simp)
  | some m =>
    rw [hm] at h
    simp only [Option.some.injEq, Prod.mk.injEq] at h
    have := nextChannelLoop_free _ _ _ _ _ _ hm
    rw [h.1] at this
    exact Option.not_isSome_iff_eq_none.mp (by simp [this])

/-- Claim C8 counterexample: starting from a connection whose table holds
only channel 0, allocation draws 1 (and registers it); deallocating 1 and
allocating again immediately returns 1 even though 2..32766 are all free —
the scan starts at the recorded cursor itself, so the very next allocation
does reuse the just-freed number. -/
theorem next_channel_immediate_reuse_cex :
    (allocRegister connWithChannel0).map
        (fun p => (p.1, (nextChannelNumber (reset_channel p.2 p.1)).map Prod.fst)) =
      some (1, some 1) := by
  decide

/-- Claim C8 (amended): after every successful allocation the chosen number
is recorded as the new cursor, so the next allocation continues its search
from it; since the scan begins at the cursor itself, allocating, registering
and then deallocating a number makes the very next allocation return that
same number again. -/
theorem next_channel_cursor_reuse (conn : Connection) (n : Nat) (c' : Connection)
    (ch : ChannelHandler) (h : nextChannelNumber conn = some (n, c')) :
    c'.next_channel = n ∧
    (nextChannelNumber (reset_channel (set_channel c' n ch) n)).map Prod.fst =
      some n := by
  have hc := nextChannelNumber_state conn n c' h
  constructor
  · rw [hc]
  · have hch : (reset_channel (set_channel c' n ch) n).channels n = none := by
      simp [reset_channel, set_channel]
    have hcur : (reset_channel (set_channel c' n ch) n).next_channel = n := by
      rw [hc]
      simp [reset_channel, set_channel]
    unfold nextChannelNumber
    rw [hcur]
    simp only [nextChannelLoop, hch]
    simp

/-- Witness for the amended C8 at a concrete allocation. -/
theorem next_channel_cursor_reuse_witness :
    ({ connWithChannel0 with next_channel := 1 } : Connection).next_channel = 1 ∧
    (nextChannelNumber (reset_channel
        (set_channel { connWithChannel0 with next_channel := 1 } 1
          (mkChannelHandler connWithChannel0 1)) 1)).map Prod.fst = some 1 :=
  next_channel_cursor_reuse connWithChannel0 1 _ _ rfl

theorem set_connection_close_noop (conn : Connection) (r : Method)
    (h : conn.connection_close = some r) (c : Method) :
    set_connection_close conn c = conn := by
  unfold set_connection_close
  rw [h]

theorem foldl_set_connection_close_noop (cs : List Method) :
    ∀ conn : Connection, ∀ r : Method, conn.connection_close = some r →
      cs.foldl set_connection_close conn = conn := by
  induction cs with
  | nil => intro conn r h; rfl
  | cons c cs ih =>
    intro conn r h
    rw [List.foldl_cons, set_connection_close_noop conn r h c]
    exact ih conn r h

/-- Claim C4: the connection keeps at most one close reason, the first ever
recorded.  Recording onto an already-closed connection is a complete no-op
(connection and all channel reasons untouched); the first recording stores
the reason on the connection and cascades the identical reason to every
registered channel through the channel-side first-wins setter (a channel
with no reason yet receives exactly this reason; a channel that already has
one keeps it); and after a first recording, any sequence of further
recordings leaves the first reason in place. -/
theorem set_connection_close_first_wins (conn : Connection) (c : Method) :
    (∀ r, conn.connection_close = some r → set_connection_close conn c = conn) ∧
    (conn.connection_close = none →
      (set_connection_close conn c).connection_close = some c ∧
      (∀ n ch, conn.channels n = some ch →
        (set_connection_close conn c).channels n = some (set_channel_close ch c)) ∧
      (∀ n, conn.channels n = none →
        (set_connection_close conn c).channels n = none)) ∧
    (∀ ch : ChannelHandler, ch.channel_close = none →
      set_channel_close ch c = { ch with channel_close := some c }) ∧
    (∀ ch : ChannelHandler, ∀ r, ch.channel_close = some r →
      set_channel_close ch c = ch) ∧
    (conn.connection_close = none → ∀ cs : List Method,
      ((c :: cs).foldl set_connection_close conn).connection_close = some c) := by
  refine ⟨fun r h => set_connection_close_noop conn r h c, ?_, ?_, ?_, ?_⟩
  · intro h
    refine ⟨?_, ?_, ?_⟩
    · unfold set_connection_close
      rw [h]
    · intro n ch hn
      unfold set_connection_close
      rw [h]
      simp [hn]
    · intro n hn
      unfold set_connection_close
      rw [h]
      simp [hn]
  · intro ch h
    unfold set_channel_close
    rw [h]
  · intro ch r h
    unfold set_channel_close
    rw [h]
  · intro h cs
    rw [List.foldl_cons]
    have h1 : (set_connection_close conn c).connection_close = some c := by
      unfold set_connection_close
      rw [h]
    rw [foldl_set_connection_close_noop cs _ c h1]
    exact h1

/-- Witness for C4: a forced close recorded on an open connection carrying
channel 0, then a racing socket-closed reason that is ignored. -/
theorem set_connection_close_first_wins_witness :
    (set_connection_close
        (set_connection_close connWithChannel0 (Method.close 320 "CONNECTION_FORCED" 0 0))
        (Method.close 0 "Socket closed" 0 0) =
      set_connection_close connWithChannel0 (Method.close 320 "CONNECTION_FORCED" 0 0)) ∧
    (set_connection_close connWithChannel0
        (Method.close 320 "CONNECTION_FORCED" 0 0)).connection_close =
      some (Method.close 320 "CONNECTION_FORCED" 0 0) ∧
    (set_connection_close connWithChannel0
        (Method.close 320 "CONNECTION_FORCED" 0 0)).channels 0 =
      some (set_channel_close (mkChannelHandler mkConnection 0)
        (Method.close 320 "CONNECTION_FORCED" 0 0)) ∧
    ((List.foldl set_connection_close connWithChannel0
        [Method.close 320 "CONNECTION_FORCED" 0 0,
          Method.close 0 "Socket closed" 0 0]).connection_close =
      some (Method.close 320 "CONNECTION_FORCED" 0 0)) := by
  have h1 := set_connection_close_first_wins connWithChannel0
    (Method.close 320 "CONNECTION_FORCED" 0 0)
  have h2 := set_connection_close_first_wins
    (set_connection_close connWithChannel0 (Method.close 320 "CONNECTION_FORCED" 0 0))
    (Method.close 0 "Socket closed" 0 0)
  refine ⟨h2.1 _ ((h1.2.1 rfl).1), (h1.2.1 rfl).1, ?_, ?_⟩
  · exact (h1.2.1 rfl).2.1 0 (mkChannelHandler mkConnection 0) rfl
  · exact h1.2.2.2.2 rfl [Method.close 0 "Socket closed" 0 0]

/-- Claim C5: an RPC attempted while the connection already has a recorded
close reason raises `ConnectionClosed` carrying exactly that reason and
leaves the connection — in particular its outbound buffer — untouched. -/
theorem rpc_on_closed_connection (conn : Connection) (channel_number : Nat)
    (method : Method) (r : Method) (h : conn.connection_close = some r) :
    rpc conn channel_number method = (some (Err.connectionClosed r), conn) ∧
    (rpc conn channel_number method).2.outbound_buffer = conn.outbound_buffer := by
  have he : ensure_channel conn channel_number =
      Except.error (Err.connectionClosed r) := by
    unfold ensure_channel
    rw [h]
  constructor
  · unfold rpc
    rw [he]
  · unfold rpc
    rw [he]

/-- Witness for C5 on a concretely closed connection. -/
theorem rpc_on_closed_connection_witness :
    rpc (set_connection_close connWithChannel0 (Method.close 320 "CONNECTION_FORCED" 0 0))
        1 Method.closeOk =
      (some (Err.connectionClosed (Method.close 320 "CONNECTION_FORCED" 0 0)),
        set_connection_close connWithChannel0 (Method.close 320 "CONNECTION_FORCED" 0 0)) ∧
    (rpc (set_connection_close connWithChannel0 (Method.close 320 "CONNECTION_FORCED" 0 0))
        1 Method.closeOk).2.outbound_buffer =
      (set_connection_close connWithChannel0
        (Method.close 320 "CONNECTION_FORCED" 0 0)).outbound_buffer :=
  rpc_on_closed_connection _ 1 Method.closeOk _ rfl

/-- Claim C7: a channel registered after the connection's close reason has
been recorded is assigned that close reason immediately at registration
time — it never sits in the table without one. -/
theorem register_after_close_has_reason (conn : Connection) (channel_number : Nat)
    (r : Method) (h : conn.connection_close = some r) :
    (register_channel conn channel_number).channels channel_number =
      some { channel_number := channel_number, channel_close := some r } := by
  unfold register_channel set_channel mkChannelHandler
  simp [h]

/-- Witness for C7: channel 7 registered on an already-closed connection. -/
theorem register_after_close_has_reason_witness :
    (register_channel
        (set_connection_close connWithChannel0 (Method.close 320 "CONNECTION_FORCED" 0 0))
        7).channels 7 =
      some ⟨7, some (Method.close 320 "CONNECTION_FORCED" 0 0)⟩ :=
  register_after_close_has_reason _ 7 _ rfl

/-- Claim C6: evaluating `_login1` at the failing input — a protocol-header
frame arriving during the start-negotiation phase.  The raised
`ProtocolVersionMismatch` carries the peer frame, but its first argument is
the *bound method object* `self._local_protocol_header` (the source omits
the call parentheses), not the locally-sent protocol header frame the spec
promises: `PHArg.boundMethod` is a different value from
`PHArg.headerFrame local_protocol_header`. -/
theorem login1_version_mismatch_payload :
    login1 mkConnection (Frame.protocolHeader 1 1 8 0) =
      (some (Err.protocolVersionMismatch PHArg.boundMethod
        (Frame.protocolHeader 1 1 8 0)), mkConnection) ∧
    PHArg.boundMethod ≠ PHArg.headerFrame local_protocol_header :=
  ⟨rfl, by decide⟩


theorem foldl_send_frame_decomp (channel_number : Nat) (pieces : List (List Nat)) :
    ∀ c : Connection,
      pieces.foldl (fun c piece => send_frame c (Frame.body channel_number piece)) c =
        { c with outbound_buffer :=
            (pieces.foldl (fun c piece => send_frame c (Frame.body channel_number piece))
              c).outbound_buffer } := by
  induction pieces with
  | nil => intro c; rfl
  | cons p ps ih =>
    intro c
    rw [List.foldl_cons]
    rw [ih (send_frame c (Frame.body channel_number p))]
    rfl

/-- `send_method` changes nothing but the outbound buffer. -/
theorem send_method_decomp (conn : Connection) (channel_number : Nat)
    (method : Method) (props : Option Props) (body : List Nat) :
    send_method conn channel_number method props body =
      { conn with outbound_buffer :=
          (send_method conn channel_number method props body).outbound_buffer } := by
  unfold send_method
  rw [foldl_send_frame_decomp]
  cases props <;> rfl

/-- `rpc` changes nothing but the outbound buffer (on a raise, not even
that). -/
theorem rpc_decomp (conn : Connection) (channel_number : Nat) (method : Method) :
    (rpc conn channel_number method).2 =
      { conn with outbound_buffer :=
          (rpc conn channel_number method).2.outbound_buffer } := by
  unfold rpc
  cases he : ensure_channel conn channel_number with
  | error e => rfl
  | ok ch => exact send_method_decomp conn channel_number method none []

theorem login2_tune_channel_max (conn : Connection) (ch cm fm hb : Nat)
    (e : Option Err) (c' : Connection)
    (h : login2 conn (Frame.method ch (Method.tune cm fm hb)) = (e, c')) :
    c'.state.channel_max = combine_tuning conn.parameters.channel_max cm := by
  unfold login2 at h
  simp only at h
  split at h
  case _ e' c5 heq =>
    obtain ⟨_, hc⟩ := Prod.mk.injEq _ _ _ _ |>.mp h
    subst hc
    have h2 := congrArg Prod.snd heq
    simp only at h2
    rw [← h2, rpc_decomp, send_method_decomp]
    simp [install_channel0, set_channel, ConnectionState.tune]
  case _ c5 heq =>
    obtain ⟨_, hc⟩ := Prod.mk.injEq _ _ _ _ |>.mp h
    subst hc
    have h2 := congrArg Prod.snd heq
    simp only at h2
    rw [← h2, rpc_decomp, send_method_decomp]
    simp [install_channel0, set_channel, ConnectionState.tune]

/-- Claim C10: the byte count `handle_read` requests from the transport's
`recv` equals the connection state's `channel_max`, with 131072 used
exactly when that value is zero/unset; it does not depend on the
negotiated `frame_max`; and once `_login2` has processed a tuning proposal
that negotiates a non-zero channel-max `C`, the requested byte count is
`C`, independently of the negotiated frame-max. -/
theorem handle_read_recv_bytes_spec (conn : Connection) :
    (conn.state.channel_max = 0 → handle_read_recv_bytes conn = 131072) ∧
    (conn.state.channel_max ≠ 0 →
      handle_read_recv_bytes conn = conn.state.channel_max) ∧
    (∀ fm : Nat, handle_read_recv_bytes
        { conn with state := { conn.state with frame_max := fm } } =
      handle_read_recv_bytes conn) ∧
    (∀ cm fm hb ch : Nat, ∀ e : Option Err, ∀ c' : Connection,
      login2 conn (Frame.method ch (Method.tune cm fm hb)) = (e, c') →
      combine_tuning conn.parameters.channel_max cm ≠ 0 →
      handle_read_recv_bytes c' = combine_tuning conn.parameters.channel_max cm) := by
  refine ⟨?_, ?_, ?_, ?_⟩
  · intro h
    unfold handle_read_recv_bytes
    rw [if_pos h]
  · intro h
    unfold handle_read_recv_bytes
    rw [if_neg h]
  · intro fm
    unfold handle_read_recv_bytes
    rfl
  · intro cm fm hb ch e c' h hnz
    have hcm := login2_tune_channel_max conn ch cm fm hb e c' h
    unfold handle_read_recv_bytes
    rw [hcm, if_neg hnz]

/-- Witness for C10: a fresh connection reads 131072 bytes; after tuning
negotiates channel-max 500, it reads 500 bytes even though the negotiated
frame-max is 4096. -/
theorem handle_read_recv_bytes_spec_witness :
    handle_read_recv_bytes mkConnection = 131072 ∧
    handle_read_recv_bytes
      (login2 mkConnection (Frame.method 0 (Method.tune 500 4096 0))).2 = 500 := by
  have h := handle_read_recv_bytes_spec mkConnection
  refine ⟨h.1 rfl, ?_⟩
  have h2 := h.2.2.2 500 4096 0 0
    (login2 mkConnection (Frame.method 0 (Method.tune 500 4096 0))).1
    (login2 mkConnection (Frame.method 0 (Method.tune 500 4096 0))).2
    rfl (by decide)
  rw [h2]
  decide

theorem send_frame_credentials (c : Connection) (f : Frame) :
    (send_frame c f).credentials = c.credentials := rfl

theorem send_method_credentials (c : Connection) (n : Nat) (m : Method)
    (p : Option Props) (b : List Nat) :
    (send_method c n m p b).credentials = c.credentials := by
  rw [send_method_decomp]

theorem rpc_credentials (c : Connection) (n : Nat) (m : Method) :
    (rpc c n m).2.credentials = c.credentials := by
  rw [rpc_decomp]

theorem set_connection_close_credentials (c : Connection) (r : Method) :
    (set_connection_close c r).credentials = c.credentials := by
  unfold set_connection_close
  split <;> rfl

theorem close_credentials (c : Connection) :
    (close c).2.credentials = c.credentials := by
  unfold close
  split
  · split
    case _ e c2 heq =>
      have h2 := congrArg Prod.snd heq
      simp only at h2 ⊢
      rw [← h2, rpc_credentials]
    case _ c2 heq =>
      have h2 := congrArg Prod.snd heq
      simp only at h2 ⊢
      rw [set_connection_close_credentials, ← h2, rpc_credentials]
  · rfl

theorem handle_close_credentials (c : Connection) :
    (handle_close c).2.credentials = c.credentials := by
  unfold handle_close
  rw [close_credentials, set_connection_close_credentials]

theorem async_connection_close_credentials (c : Connection) (m : Method) :
    (async_connection_close c m).credentials = c.credentials := by
  unfold async_connection_close
  rw [send_method_credentials]
  exact set_connection_close_credentials c m

theorem generic_frame_handler_credentials (c : Connection) (f : Frame) :
    (generic_frame_handler c f).2.credentials = c.credentials := by
  unfold generic_frame_handler
  split
  · rfl
  · split <;> rfl

theorem login2_credentials (c : Connection) (f : Frame) :
    (login2 c f).2.credentials = c.credentials := by
  unfold login2
  split
  · simp only
    split
    case _ e c5 heq =>
      have h2 := congrArg Prod.snd heq
      simp only at h2 ⊢
      rw [← h2, rpc_credentials]
      simp only [install_channel0, set_channel, send_method_credentials]
    case _ c5 heq =>
      have h2 := congrArg Prod.snd heq
      simp only at h2 ⊢
      rw [← h2, rpc_credentials]
      simp only [install_channel0, set_channel, send_method_credentials]
  · rfl

theorem login1_credentials_none (c : Connection) (f : Frame)
    (h : c.credentials = none) : (login1 c f).2.credentials = none := by
  unfold login1
  cases f with
  | method n m =>
    cases m
    case start mech => rw [h]; exact h
    all_goals exact h
  | protocolHeader a b mj mi => exact h
  | header a b p => exact h
  | body a b => exact h
  | heartbeat a => exact h

theorem login1_success_erases (c : Connection) (f : Frame)
    (h : (login1 c f).1 = none) :
    (login1 c f).2.credentials = none ∧
    (login1 c f).2.frame_handler = HandlerTag.login2 := by
  unfold login1 at h ⊢
  cases f with
  | method n m =>
    cases m
    case start mech =>
      dsimp only at h ⊢
      cases hc : c.credentials with
      | none =>
        try rw [hc] at h
        exact absurd h (by simp)
      | some creds =>
        try rw [hc] at h
        try rw [hc]
        dsimp only at h ⊢
        cases hr : creds.response_for mech with
        | none =>
          try rw [hr] at h
          exact absurd h (by simp)
        | some pr =>
          try rw [hr] at h
          try rw [hr]
          exact ⟨rfl, rfl⟩
    all_goals exact absurd h (by simp)
  | protocolHeader a b mj mi => exact absurd h (by simp)
  | header a b p => exact absurd h (by simp)
  | body a b => exact absurd h (by simp)
  | heartbeat a => exact absurd h (by simp)

theorem step_preserves_credentials_none (c c' : Connection) (hs : Step c c')
    (h : c.credentials = none) : c'.credentials = none := by
  cases hs with
  | sendFrame f => exact h
  | sendMethod n m p b => rw [send_method_credentials]; exact h
  | setConnectionClose r => rw [set_connection_close_credentials]; exact h
  | setChannel n ch => exact h
  | resetChannel n => exact h
  | registerChannel n => exact h
  | installChannel0 => exact h
  | allocate n c2 h2 => rw [nextChannelNumber_state _ _ _ h2]; exact h
  | rpcStep n m => rw [rpc_credentials]; exact h
  | closeStep => rw [close_credentials]; exact h
  | handleClose => rw [handle_close_credentials]; exact h
  | login1Step f => exact login1_credentials_none c f h
  | login2Step f => rw [login2_credentials]; exact h
  | genericFrame f => rw [generic_frame_handler_credentials]; exact h
  | asyncConnectionClose m => rw [async_connection_close_credentials]; exact h

/-- Claim C9: when `_login1` completes successfully (no exception), the
start-acknowledgement has been sent, the frame handler has moved to the
tuning phase, the credentials field is `None` — and it stays `None` in
every state reachable from there by any sequence of connection
operations. -/
theorem credentials_cleared_after_start (conn : Connection) (f : Frame)
    (hok : (login1 conn f).1 = none) (c'' : Connection)
    (hreach : Relation.ReflTransGen Step (login1 conn f).2 c'') :
    (login1 conn f).2.credentials = none ∧
    (login1 conn f).2.frame_handler = HandlerTag.login2 ∧
    c''.credentials = none := by
  obtain ⟨h1, h2⟩ := login1_success_erases conn f hok
  refine ⟨h1, h2, ?_⟩
  induction hreach with
  | refl => exact h1
  | tail hab hbc ih => exact step_preserves_credentials_none _ _ hbc ih

/-- Witness for C9: a successful start negotiation with mechanisms
`"PLAIN AMQPLAIN"`, followed by one further step (a heartbeat echo). -/
theorem credentials_cleared_after_start_witness :
    (login1 mkConnection (Frame.method 0 (Method.start "PLAIN AMQPLAIN"))).2.credentials =
      none ∧
    (login1 mkConnection (Frame.method 0 (Method.start "PLAIN AMQPLAIN"))).2.frame_handler =
      HandlerTag.login2 ∧
    (send_frame (login1 mkConnection
      (Frame.method 0 (Method.start "PLAIN AMQPLAIN"))).2 (Frame.heartbeat 0)).credentials =
      none :=
  credentials_cleared_after_start mkConnection
    (Frame.method 0 (Method.start "PLAIN AMQPLAIN")) (by decide) _
    (Relation.ReflTransGen.single (Step.sendFrame _ (Frame.heartbeat 0)))

theorem channelLimit_pos (conn : Connection) : 0 < channelLimit conn := by
  unfold channelLimit
  split <;> omega

theorem bump_range (limit cur : Nat) (hl : 0 < limit) :
    1 ≤ bump limit cur ∧ bump limit cur ≤ max 1 (limit - 1) := by
  unfold bump
  by_cases h : (cur + 1) % limit = 0
  · rw [if_pos h]
    exact ⟨Nat.le_refl 1, le_max_left 1 _⟩
  · rw [if_neg h]
    have hlt := Nat.mod_lt (cur + 1) hl
    constructor
    · omega
    · have h2 : (cur + 1) % limit ≤ limit - 1 := by omega
      exact le_trans h2 (le_max_right 1 _)

theorem nextChannelLoop_range (inTable : Nat → Bool) (limit : Nat)
    (hl : 0 < limit) :
    ∀ fuel cur tries n, nextChannelLoop inTable limit fuel cur tries = some n →
      n = cur ∨ (1 ≤ n ∧ n ≤ max 1 (limit - 1)) := by
  intro fuel
  induction fuel with
  | zero =>
    intro cur tries n h
    exact absurd h (by simp [nextChannelLoop])
  | succ fuel ih =>
    intro cur tries n h
    simp only [nextChannelLoop] at h
    cases hb : inTable cur with
    | false =>
      rw [hb] at h
      simp only [Bool.false_eq_true, if_false, Option.some.injEq] at h
      left
      exact h.symm
    | true =>
      rw [hb] at h
      simp only [if_true] at h
      by_cases hr : limit < tries + 1
      · rw [if_pos hr] at h
        exact absurd h (by simp)
      · rw [if_neg hr] at h
        rcases ih _ _ _ h with h1 | h1
        · right
          rw [h1]
          exact bump_range limit cur hl
        · right
          exact h1

theorem nextChannelLoop_exhaust (inTable : Nat → Bool) (limit : Nat)
    (hl : 0 < limit)
    (hall : ∀ m, 1 ≤ m → m ≤ max 1 (limit - 1) → inTable m = true) :
    ∀ fuel cur tries, inTable cur = true →
      nextChannelLoop inTable limit fuel cur tries = none := by
  intro fuel
  induction fuel with
  | zero => intro cur tries hc; rfl
  | succ fuel ih =>
    intro cur tries hc
    simp only [nextChannelLoop, hc, if_true]
    by_cases hr : limit < tries + 1
    · rw [if_pos hr]
    · rw [if_neg hr]
      have hb := bump_range limit cur hl
      exact ih _ _ (hall _ hb.1 hb.2)

theorem nextChannelLoop_success (inTable : Nat → Bool) (limit : Nat) :
    ∀ s fuel cur tries, inTable ((bump limit)^[s] cur) = false →
      tries + s ≤ limit → s < fuel →
      ∃ n, nextChannelLoop inTable limit fuel cur tries = some n ∧
        inTable n = false := by
  intro s
  induction s with
  | zero =>
    intro fuel cur tries h0 hts hf
    cases fuel with
    | zero => omega
    | succ fuel =>
      simp only [Function.iterate_zero, id] at h0
      refine ⟨cur, ?_, h0⟩
      simp only [nextChannelLoop, h0]
      simp
  | succ s ih =>
    intro fuel cur tries hs hts hf
    cases hb : inTable cur with
    | false =>
      cases fuel with
      | zero => omega
      | succ fuel =>
        refine ⟨cur, ?_, hb⟩
        simp only [nextChannelLoop, hb]
        simp
    | true =>
      cases fuel with
      | zero => omega
      | succ fuel =>
        simp only [nextChannelLoop, hb, if_true]
        have hr : ¬ limit < tries + 1 := by omega
        rw [if_neg hr]
        apply ih
        · rw [← Function.iterate_succ_apply]
          exact hs
        · omega
        · omega

theorem bump_step_up (limit c : Nat) (h : c + 1 ≤ limit - 1) :
    bump limit c = c + 1 := by
  unfold bump
  have hlt : c + 1 < limit := by omega
  rw [Nat.mod_eq_of_lt hlt]
  rw [if_neg (by omega)]

theorem bump_wrap (limit : Nat) (hl : 2 ≤ limit) :
    bump limit (limit - 1) = 1 := by
  unfold bump
  have h1 : limit - 1 + 1 = limit := by omega
  rw [h1, Nat.mod_self]
  rw [if_pos rfl]

theorem bump_iterate_up (limit : Nat) :
    ∀ j c, c + j ≤ limit - 1 → (bump limit)^[j] c = c + j := by
  intro j
  induction j with
  | zero => intro c h; simp
  | succ j ih =>
    intro c h
    rw [Function.iterate_succ_apply', ih c (by omega)]
    exact bump_step_up limit (c + j) (by omega)

theorem bump_iterate_reach (limit : Nat) (hl : 2 ≤ limit) :
    ∀ cur m, cur ≤ limit - 1 → 1 ≤ m → m ≤ limit - 1 →
      ∃ s, s ≤ limit ∧ (bump limit)^[s] cur = m := by
  intro cur m hcur hm1 hm2
  rcases le_or_lt cur m with hc | hc
  · refine ⟨m - cur, by omega, ?_⟩
    rw [bump_iterate_up limit (m - cur) cur (by omega)]
    omega
  · refine ⟨(m - 1) + (1 + (limit - 1 - cur)), by omega, ?_⟩
    rw [Function.iterate_add_apply, Function.iterate_add_apply]
    rw [bump_iterate_up limit (limit - 1 - cur) cur (by omega)]
    have hc1 : cur + (limit - 1 - cur) = limit - 1 := by omega
    rw [hc1]
    rw [Function.iterate_one, bump_wrap limit hl]
    rw [bump_iterate_up limit (m - 1) 1 (by omega)]
    omega

theorem max_one_sub_le (l : Nat) (h : 1 ≤ l) : max 1 (l - 1) ≤ l :=
  max_le h (by omega)

theorem nextChannelNumber_loop (conn : Connection) (n : Nat) (c' : Connection)
    (h : nextChannelNumber conn = some (n, c')) :
    nextChannelLoop (fun k => (conn.channels k).isSome) (channelLimit conn)
      (channelLimit conn + 1) conn.next_channel 0 = some n := by
  unfold nextChannelNumber at h
  cases hm : nextChannelLoop (fun k => (conn.channels k).isSome) (channelLimit conn)
      (channelLimit conn + 1) conn.next_channel 0 with
  | none => rw [hm] at h; exact absurd h (by simp)
  | some m =>
    rw [hm] at h
    simp only [Option.some.injEq, Prod.mk.injEq] at h
    rw [h.1]

theorem nextChannelNumber_nonzero_bounded (conn : Connection) (n : Nat)
    (c' : Connection) (h0 : (conn.channels 0).isSome = true)
    (hcur : conn.next_channel ≤ max 1 (channelLimit conn - 1))
    (h : nextChannelNumber conn = some (n, c')) :
    1 ≤ n ∧ n ≤ max 1 (channelLimit conn - 1) := by
  have hfree := nextChannelNumber_unregistered conn n c' h
  have hn0 : n ≠ 0 := by
    intro e
    rw [e] at hfree
    rw [hfree] at h0
    simp at h0
  rcases nextChannelLoop_range (fun k => (conn.channels k).isSome)
      (channelLimit conn) (channelLimit_pos conn) _ _ _ _
      (nextChannelNumber_loop conn n c' h) with h1 | h1
  · exact ⟨by omega, by rw [h1]; exact hcur⟩
  · exact h1

theorem allocRegister_some (conn : Connection) (n : Nat) (c1 : Connection)
    (h : allocRegister conn = some (n, c1)) :
    ∃ c', nextChannelNumber conn = some (n, c') ∧
      c1 = set_channel c' n (mkChannelHandler c' n) := by
  unfold allocRegister at h
  cases hm : nextChannelNumber conn with
  | none => rw [hm] at h; exact absurd h (by simp)
  | some p =>
    rw [hm] at h
    rcases p with ⟨m, c'⟩
    simp only [Option.some.injEq, Prod.mk.injEq] at h
    obtain ⟨h1, h2⟩ := h
    subst h1
    exact ⟨c', rfl, h2.symm⟩

theorem allocSeq_succ (conn : Connection) (k : Nat) (ns : List Nat)
    (c2 : Connection) (h : allocSeq conn (k + 1) = some (ns, c2)) :
    ∃ n c1 ns', allocRegister conn = some (n, c1) ∧
      allocSeq c1 k = some (ns', c2) ∧ ns = n :: ns' := by
  unfold allocSeq at h
  cases ha : allocRegister conn with
  | none =>
    try rw [ha] at h
    dsimp only at h
    exact absurd h (by simp)
  | some p =>
    try rw [ha] at h
    rcases p with ⟨n, c1⟩
    dsimp only at h
    cases hs : allocSeq c1 k with
    | none =>
      try rw [hs] at h
      dsimp only at h
      exact absurd h (by simp)
    | some q =>
      try rw [hs] at h
      rcases q with ⟨ns', c3⟩
      dsimp only at h
      simp only [Option.some.injEq, Prod.mk.injEq] at h
      obtain ⟨h1, h2⟩ := h
      subst h2
      exact ⟨n, c1, ns', rfl, hs, h1.symm⟩

theorem allocSeq_not_mem :
    ∀ k : Nat, ∀ conn : Connection, ∀ ns : List Nat, ∀ c2 : Connection, ∀ x : Nat,
      allocSeq conn k = some (ns, c2) → (conn.channels x).isSome = true →
      x ∉ ns := by
  intro k
  induction k with
  | zero =>
    intro conn ns c2 x h hx
    unfold allocSeq at h
    simp only [Option.some.injEq, Prod.mk.injEq] at h
    rw [← h.1]
    exact List.not_mem_nil x
  | succ k ih =>
    intro conn ns c2 x h hx
    obtain ⟨n, c1, ns', ha, hs, hcons⟩ := allocSeq_succ conn k ns c2 h
    obtain ⟨c', hnum, hc1⟩ := allocRegister_some conn n c1 ha
    have hfree := nextChannelNumber_unregistered conn n c' hnum
    have hnx : n ≠ x := by
      intro e
      rw [e] at hfree
      rw [hfree] at hx
      simp at hx
    have hx1 : (c1.channels x).isSome = true := by
      rw [hc1, nextChannelNumber_state conn n c' hnum]
      unfold set_channel
      simp only
      by_cases he : x = n
      · rw [if_pos he]; rfl
      · rw [if_neg he]; exact hx
    rw [hcons]
    intro hmem
    rcases List.mem_cons.mp hmem with h1 | h1
    · exact hnx h1.symm
    · exact ih c1 ns' c2 x hs hx1 h1

theorem allocRegister_invariants (conn : Connection) (n : Nat) (c1 : Connection)
    (h : allocRegister conn = some (n, c1))
    (h0 : (conn.channels 0).isSome = true)
    (hcur : conn.next_channel ≤ max 1 (channelLimit conn - 1)) :
    (c1.channels 0).isSome = true ∧
    c1.next_channel ≤ max 1 (channelLimit c1 - 1) ∧
    channelLimit c1 = channelLimit conn ∧
    1 ≤ n ∧ n ≤ max 1 (channelLimit conn - 1) ∧
    conn.channels n = none ∧
    (∀ m, m ≠ n → c1.channels m = conn.channels m) := by
  obtain ⟨c', hnum, hc1⟩ := allocRegister_some conn n c1 h
  have hst := nextChannelNumber_state conn n c' hnum
  obtain ⟨hn1, hn2⟩ := nextChannelNumber_nonzero_bounded conn n c' h0 hcur hnum
  subst hst
  subst hc1
  refine ⟨?_, ?_, rfl, hn1, hn2, nextChannelNumber_unregistered conn n _ hnum, ?_⟩
  · unfold set_channel
    simp only
    by_cases he : (0 : Nat) = n
    · rw [if_pos he]; rfl
    · rw [if_neg he]; exact h0
  · show n ≤ max 1 (channelLimit conn - 1)
    exact hn2
  · intro m hm
    unfold set_channel
    simp only
    rw [if_neg hm]

theorem allocSeq_sound :
    ∀ k : Nat, ∀ conn : Connection, ∀ ns : List Nat, ∀ c2 : Connection,
      (conn.channels 0).isSome = true →
      conn.next_channel ≤ max 1 (channelLimit conn - 1) →
      allocSeq conn k = some (ns, c2) →
      ns.Nodup ∧ ∀ n ∈ ns, 1 ≤ n ∧ n ≤ channelLimit conn := by
  intro k
  induction k with
  | zero =>
    intro conn ns c2 h0 hcur h
    unfold allocSeq at h
    simp only [Option.some.injEq, Prod.mk.injEq] at h
    rw [← h.1]
    exact ⟨List.nodup_nil, by simp⟩
  | succ k ih =>
    intro conn ns c2 h0 hcur h
    obtain ⟨n, c1, ns', ha, hs, hcons⟩ := allocSeq_succ conn k ns c2 h
    obtain ⟨h01, hcur1, hlim1, hn1, hn2, hfree, hrest⟩ :=
      allocRegister_invariants conn n c1 ha h0 hcur
    obtain ⟨hnd, hbd⟩ := ih c1 ns' c2 h01 hcur1 hs
    have hreg : (c1.channels n).isSome = true := by
      obtain ⟨c', hnum, hc1⟩ := allocRegister_some conn n c1 ha
      rw [hc1]
      unfold set_channel
      simp
    have hnmem : n ∉ ns' := allocSeq_not_mem k c1 ns' c2 n hs hreg
    rw [hcons]
    constructor
    · exact List.nodup_cons.mpr ⟨hnmem, hnd⟩
    · intro m hm
      rcases List.mem_cons.mp hm with h1 | h1
      · subst h1
        exact ⟨hn1, le_trans hn2 (max_one_sub_le _ (channelLimit_pos conn))⟩
      · have := hbd m h1
        rw [hlim1] at this
        exact this

theorem allocSeq_reaches_free :
    ∀ fc : Nat, ∀ conn : Connection,
      ((Finset.Icc 1 (channelLimit conn - 1)).filter
        (fun m => conn.channels m = none)).card = fc →
      (conn.channels 0).isSome = true →
      conn.next_channel ≤ max 1 (channelLimit conn - 1) →
      ∀ n, 1 ≤ n → n ≤ channelLimit conn - 1 → conn.channels n = none →
      ∃ k ns c2, allocSeq conn k = some (ns, c2) ∧ n ∈ ns := by
  intro fc
  induction fc using Nat.strong_induction_on with
  | _ fc ih =>
    intro conn hfc h0 hcur n hn1 hn2 hfree
    have hl2 : 2 ≤ channelLimit conn := by omega
    have hmax : max 1 (channelLimit conn - 1) = channelLimit conn - 1 :=
      max_eq_right (by omega)
    have hcur' : conn.next_channel ≤ channelLimit conn - 1 := by
      rw [hmax] at hcur
      exact hcur
    obtain ⟨s, hsle, hseq⟩ := bump_iterate_reach (channelLimit conn) hl2
      conn.next_channel n hcur' hn1 hn2
    obtain ⟨r, hloop, hrfree⟩ := nextChannelLoop_success
      (fun k => (conn.channels k).isSome) (channelLimit conn) s
      (channelLimit conn + 1) conn.next_channel 0
      (by rw [hseq]; simp [hfree]) (by omega) (by omega)
    have hnum : nextChannelNumber conn =
        some (r, { conn with next_channel := r }) := by
      unfold nextChannelNumber
      rw [hloop]
    have hreg : allocRegister conn =
        some (r, set_channel { conn with next_channel := r } r
          (mkChannelHandler { conn with next_channel := r } r)) := by
      unfold allocRegister
      rw [hnum]
    by_cases hr : r = n
    · refine ⟨1, [r], set_channel { conn with next_channel := r } r
          (mkChannelHandler { conn with next_channel := r } r), ?_, ?_⟩
      · unfold allocSeq
        rw [hreg]
        rfl
      · rw [hr]
        exact List.mem_singleton.mpr rfl
    · have hrnone : conn.channels r = none :=
        Option.not_isSome_iff_eq_none.mp (by simp [hrfree])
      have hr0 : r ≠ 0 := by
        intro e
        rw [e] at hrnone
        rw [hrnone] at h0
        simp at h0
      have hrbound : r ≤ channelLimit conn - 1 := by
        rcases nextChannelLoop_range (fun k => (conn.channels k).isSome)
            (channelLimit conn) (channelLimit_pos conn) _ _ _ _ hloop with h1 | h1
        · rw [h1]; exact hcur'
        · rw [hmax] at h1; exact h1.2
      set c1 := set_channel { conn with next_channel := r } r
        (mkChannelHandler { conn with next_channel := r } r) with hc1def
      obtain ⟨h01, hcur1, hlim1, _, _, _, hother⟩ :=
        allocRegister_invariants conn r c1 hreg h0 hcur
      have hnfree1 : c1.channels n = none := by
        rw [hother n (fun e => hr e.symm)]
        exact hfree
      have hsub : (Finset.Icc 1 (channelLimit c1 - 1)).filter
            (fun m => c1.channels m = none) =
          ((Finset.Icc 1 (channelLimit conn - 1)).filter
            (fun m => conn.channels m = none)).erase r := by
        rw [hlim1]
        ext m
        simp only [Finset.mem_filter, Finset.mem_erase, Finset.mem_Icc]
        constructor
        · intro ⟨hmi, hmn⟩
          have hmr : m ≠ r := by
            intro e
            rw [e] at hmn
            rw [hc1def] at hmn
            unfold set_channel at hmn
            simp at hmn
          rw [hother m hmr] at hmn
          exact ⟨hmr, hmi, hmn⟩
        · intro ⟨hmr, hmi, hmn⟩
          rw [← hother m hmr] at hmn
          exact ⟨hmi, hmn⟩
      have hrmem : r ∈ (Finset.Icc 1 (channelLimit conn - 1)).filter
          (fun m => conn.channels m = none) := by
        simp only [Finset.mem_filter, Finset.mem_Icc]
        exact ⟨⟨by omega, hrbound⟩, hrnone⟩
      have hcard : ((Finset.Icc 1 (channelLimit c1 - 1)).filter
          (fun m => c1.channels m = none)).card < fc := by
        rw [hsub, ← hfc]
        exact Finset.card_erase_lt_of_mem hrmem
      obtain ⟨k, ns, c2, hseq2, hmem⟩ := ih _ hcard c1 rfl h01 hcur1 n hn1
        (by rw [hlim1]; exact hn2) hnfree1
      refine ⟨k + 1, r :: ns, c2, ?_, List.mem_cons.mpr (Or.inr hmem)⟩
      unfold allocSeq
      rw [hreg]
      dsimp only
      rw [hseq2]

/-- Claim C3 counterexample: from the freshly constructed connection (empty
channel table, cursor 0) the very first allocation returns channel number
0, although the claim requires every returned number to be non-zero — the
scan only skips 0 while advancing, not at the initial cursor position. -/
theorem next_channel_returns_zero_cex :
    (nextChannelNumber mkConnection).map Prod.fst = some 0 := by
  decide

/-- Claim C3 (amended): provided channel 0 is already registered (as the
handshake's channel-0 installation guarantees before any allocation) and
the cursor is in range, then: every sequence of allocations — each chosen
number registered before the next — returns pairwise distinct non-zero
numbers none of which exceeds the negotiated channel-max (32767 when
unset); when every admissible number is present in the table the allocator
raises `NoFreeChannels` (returns `none`); a still-registered number is
never returned; and a freed admissible number is eventually returned again
by some continuation of allocations. -/
theorem allocation_spec (conn : Connection)
    (h0 : (conn.channels 0).isSome = true)
    (hcur : conn.next_channel ≤ max 1 (channelLimit conn - 1)) :
    (∀ k ns c2, allocSeq conn k = some (ns, c2) →
      ns.Nodup ∧ ∀ n ∈ ns, 1 ≤ n ∧ n ≤ channelLimit conn) ∧
    ((∀ m, 1 ≤ m → m ≤ channelLimit conn → (conn.channels m).isSome = true) →
      nextChannelNumber conn = none) ∧
    (∀ n c2, nextChannelNumber conn = some (n, c2) → conn.channels n = none) ∧
    (∀ n, 1 ≤ n → n ≤ channelLimit conn - 1 → conn.channels n = none →
      ∃ k ns c2, allocSeq conn k = some (ns, c2) ∧ n ∈ ns) := by
  refine ⟨fun k ns c2 h => allocSeq_sound k conn ns c2 h0 hcur h, ?_,
    fun n c2 h => nextChannelNumber_unregistered conn n c2 h,
    fun n h1 h2 h3 => allocSeq_reaches_free _ conn rfl h0 hcur n h1 h2 h3⟩
  intro hall
  have hall' : ∀ m, 1 ≤ m → m ≤ max 1 (channelLimit conn - 1) →
      (conn.channels m).isSome = true :=
    fun m hm1 hm2 =>
      hall m hm1 (le_trans hm2 (max_one_sub_le _ (channelLimit_pos conn)))
  have hcurT : (conn.channels conn.next_channel).isSome = true := by
    rcases Nat.eq_zero_or_pos conn.next_channel with he | he
    · rw [he]; exact h0
    · exact hall' _ he hcur
  have hnone := nextChannelLoop_exhaust (fun k => (conn.channels k).isSome)
    (channelLimit conn) (channelLimit_pos conn) hall'
    (channelLimit conn + 1) conn.next_channel 0 hcurT
  unfold nextChannelNumber
  rw [hnone]

/-- Witness for the amended C3: two allocations from the post-handshake
state draw the distinct non-zero numbers 1 and 2; the registered number 1
was free beforehand; and a connection with channel-max 1 whose numbers 0
and 1 are all taken raises `NoFreeChannels`. -/
theorem allocation_spec_witness :
    ([1, 2] : List Nat).Nodup ∧
    (∀ n ∈ ([1, 2] : List Nat), 1 ≤ n ∧ n ≤ channelLimit connWithChannel0) ∧
    connWithChannel0.channels 1 = none ∧
    nextChannelNumber exhConn = none := by
  have H := allocation_spec connWithChannel0 (by decide) (by decide)
  have HE := allocation_spec exhConn (by decide) (by decide)
  have hmap : (allocSeq connWithChannel0 2).map Prod.fst = some [1, 2] := by
    decide
  refine ⟨?_, ?_, ?_, ?_⟩
  · cases hs : allocSeq connWithChannel0 2 with
    | none => rw [hs] at hmap; exact absurd hmap (by simp)
    | some p =>
      rw [hs] at hmap
      simp at hmap
      have := (H.1 2 p.1 p.2 (by rw [hs])).1
      rw [hmap] at this
      exact this
  · cases hs : allocSeq connWithChannel0 2 with
    | none => rw [hs] at hmap; exact absurd hmap (by simp)
    | some p =>
      rw [hs] at hmap
      simp at hmap
      have := (H.1 2 p.1 p.2 (by rw [hs])).2
      rw [hmap] at this
      exact this
  · exact H.2.2.1 1 { connWithChannel0 with next_channel := 1 } rfl
  · refine HE.2.1 ?_
    intro m hm1 hm2
    have hm : m = 1 := by
      have : channelLimit exhConn = 1 := by decide
      omega
    subst hm
    decide
